import Mathlib

/-!
Verification of the trajectory-analysis module (code.py): a shallow embedding
of the trajectory loader, the shared text-extraction primitives and the three
classifiers (locate_reproduction_code, locate_search, locate_tool_use),
together with theorems settling the specified properties.

Conventions of the embedding:
* JSON-decoded Python values are modelled by the inductive `Json` (numbers as
  integers; no property here involves fractional numeric step fields).
* A step is a JSON object; field access models `dict.get`.
* `json.loads` is modelled by an explicit parameter `parse : String → Option Json`
  (`none` models `json.JSONDecodeError`); theorems about the loader quantify
  over it or instantiate it with small concrete parse tables mirroring what
  `json.loads` returns on the concrete inputs involved.
* Python exceptions that the module itself can raise are modelled with
  `Except String`.
* File-system effects of the audit log are modelled by an explicit log-line
  list plus a `WriteOutcome` oracle for the underlying append.
-/

namespace Traj

/-- JSON values as produced by deserializing a trajectory file. -/
inductive Json where
  | null : Json
  | bool (b : Bool) : Json
  | num (n : Int) : Json
  | str (s : String) : Json
  | arr (xs : List Json) : Json
  | obj (fields : List (String × Json)) : Json

/-- Tests whether a JSON value is an object (models `isinstance(x, dict)`). -/
def Json.isObj : Json → Bool
  | .obj _ => true
  | _ => false

/-- Python truthiness of a JSON-decoded value (`bool(x)`). -/
def truthy : Json → Bool
  | .null => false
  | .bool b => b
  | .num n => n != 0
  | .str s => s != ""
  | .arr xs => !xs.isEmpty
  | .obj fs => !fs.isEmpty

/-- Python `repr` of a string consisting of printable characters: quote choice
(single quotes unless the string contains a single quote and no double quote)
and escaping of backslash, the quote character, newline, carriage return, tab. -/
def pyStrRepr (s : String) : String :=
  let sq : Char := Char.ofNat 39
  let dq : Char := Char.ofNat 34
  let bs : Char := Char.ofNat 92
  let q : Char := if s.data.contains sq && !(s.data.contains dq) then dq else sq
  let esc : Char → List Char := fun c =>
    if c = bs then [bs, bs]
    else if c = q then [bs, q]
    else if c = Char.ofNat 10 then [bs, 'n']
    else if c = Char.ofNat 13 then [bs, 'r']
    else if c = Char.ofNat 9 then [bs, 't']
    else [c]
  String.mk ([q] ++ s.data.flatMap esc ++ [q])

mutual
/-- Python `repr` of a JSON-decoded value. -/
def pyRepr : Json → String
  | .null => "None"
  | .bool true => "True"
  | .bool false => "False"
  | .num n => toString n
  | .str s => pyStrRepr s
  | .arr xs => "[" ++ pyReprSeq xs ++ "]"
  | .obj fs => "\x7b" ++ pyReprFields fs ++ "\x7d"

/-- Comma-separated reprs of the elements of a JSON array. -/
def pyReprSeq : List Json → String
  | [] => ""
  | [x] => pyRepr x
  | x :: y :: rest => pyRepr x ++ ", " ++ pyReprSeq (y :: rest)

/-- Comma-separated `key: value` reprs of the fields of a JSON object. -/
def pyReprFields : List (String × Json) → String
  | [] => ""
  | [(k, v)] => pyStrRepr k ++ ": " ++ pyRepr v
  | (k, v) :: f :: rest => pyStrRepr k ++ ": " ++ pyRepr v ++ ", " ++ pyReprFields (f :: rest)
end

/-- Python `str()` of a JSON-decoded value: the string itself for strings,
`repr` otherwise. -/
def pyStr : Json → String
  | .str s => s
  | .null => pyRepr .null
  | .bool b => pyRepr (.bool b)
  | .num n => pyRepr (.num n)
  | .arr xs => pyRepr (.arr xs)
  | .obj fs => pyRepr (.obj fs)

/-- Characters treated as whitespace by Python `str.strip()` / `str.split()`. -/
def isPyWs (c : Char) : Bool :=
  c = ' ' || c = Char.ofNat 9 || c = Char.ofNat 10 || c = Char.ofNat 13 ||
    c = Char.ofNat 11 || c = Char.ofNat 12

/-- Python `str.strip()` with no arguments: drop whitespace from both ends. -/
def pyStrip (s : String) : String :=
  String.mk (((s.data.dropWhile isPyWs).reverse.dropWhile isPyWs).reverse)

/-- Worker of `pySplitWs` over the remaining characters and the accumulated
current word (reversed). -/
def splitWsAux : List Char → List Char → List String
  | [], acc => if acc.isEmpty then [] else [String.mk acc.reverse]
  | c :: rest, acc =>
    if isPyWs c then
      if acc.isEmpty then splitWsAux rest []
      else String.mk acc.reverse :: splitWsAux rest []
    else splitWsAux rest (c :: acc)

/-- Python `str.split()` with no arguments: split on whitespace runs,
discarding empty pieces. -/
def pySplitWs (s : String) : List String :=
  splitWsAux s.data []

/-- Python `str.lower()` (the module only lowercases ASCII command text). -/
def pyLower (s : String) : String :=
  String.mk (s.data.map Char.toLower)

/-- Python `str.splitlines()` worker over the remaining characters, the
accumulated current line (reversed) and a flag recording whether the previous
character was a carriage return (so a following newline is absorbed as one
CRLF boundary); recognizes the newline, carriage return and CRLF line
boundaries and produces no trailing empty line. -/
def splitlinesAux : List Char → List Char → Bool → List String
  | [], acc, _ => if acc.isEmpty then [] else [String.mk acc.reverse]
  | c :: rest, acc, afterCR =>
    if afterCR && c = Char.ofNat 10 then splitlinesAux rest [] false
    else if c = Char.ofNat 10 then String.mk acc.reverse :: splitlinesAux rest [] false
    else if c = Char.ofNat 13 then String.mk acc.reverse :: splitlinesAux rest [] true
    else splitlinesAux rest (c :: acc) false

/-- Python `str.splitlines()`. -/
def pySplitlines (s : String) : List String :=
  splitlinesAux s.data [] false

/-- Python substring containment `pat in s`. -/
def containsSub (s pat : String) : Bool :=
  (List.range (s.length + 1)).any (fun i => pat.data.isPrefixOf (s.data.drop i))

/-- Python `s.split(pat, 1)[0]`: the prefix of `s` before the first occurrence
of `pat` (the whole of `s` when `pat` does not occur). -/
def splitBeforeFirst (s pat : String) : String :=
  match (List.range (s.length + 1)).find? (fun i => pat.data.isPrefixOf (s.data.drop i)) with
  | some i => String.mk (s.data.take i)
  | none => s

/-- Python `sep.join(pieces)`. -/
def pyJoin (sep : String) : List String → String
  | [] => ""
  | [x] => x
  | x :: y :: rest => x ++ sep ++ pyJoin sep (y :: rest)

/-- FILE_KEYWORDS: keywords that suggest a file is meant to reproduce or test
a bug (code.py lines 26-36). -/
def FILE_KEYWORDS : List String :=
  ["repro", "reproduce", "reproduction", "debug", "test", "tests", "pytest",
    "unit", "minimal"]

/-- THOUGHT_KEYWORDS: keywords that can appear in thoughts describing
reproduction steps (code.py lines 39-51). -/
def THOUGHT_KEYWORDS : List String :=
  ["repro", "reproduce", "reproduction", "debug", "test case",
    "test to reproduce", "script to reproduce", "minimal example",
    "minimal repro", "unit test", "pytest"]

/-- Strip verbose payloads (like --file_text) to focus on the command header
(code.py `_action_header`).  For nonempty input, `splitlines()[0]` is the
prefix before the first line boundary, hence the `headD`. -/
def _action_header (action_text : String) : String :=
  if action_text = "" then ""
  else if containsSub action_text "--file_text" then
    splitBeforeFirst action_text "--file_text"
  else (pySplitlines action_text).headD ""

/-- Markers of file-writing idioms (code.py `_is_creation_action`). -/
def creationMarkers : List String :=
  ["str_replace_editor create", "apply_patch", "cat <<", "cat >", "tee ",
    "printf ", "echo ", "touch "]

/-- Heuristic for whether the action writes/creates a file
(code.py `_is_creation_action`). -/
def _is_creation_action (action_text : String) : Bool :=
  let lowered := pyLower action_text
  creationMarkers.any (fun marker => containsSub lowered marker)

/-- Characters excluded by the first filename regex character class.  The
source pattern is a raw string whose class lists a doubled backslash, the
letter s, the two quote characters and the backtick, so the
doubled backslash makes the class exclude a literal backslash and the letter
s (not whitespace), together with the two quotes and the backtick. -/
def pat1Excl : List Char :=
  [Char.ofNat 92, 's', Char.ofNat 39, Char.ofNat 34, Char.ofNat 96]

/-- Scanner for `re.findall` with the first filename pattern: at a `/`, the
match is the slash followed by the maximal nonempty run of characters outside
`pat1Excl`; scanning resumes after each match.  The fuel argument (initially
the length of the text, an upper bound on the number of scan positions, since
every step consumes at least one character) makes the scan structurally
recursive. -/
def findallPat1Aux : Nat → List Char → List String
  | 0, _ => []
  | _, [] => []
  | fuel + 1, c :: rest =>
    if c = '/' then
      let run := rest.takeWhile (fun d => !pat1Excl.contains d)
      if run.isEmpty then findallPat1Aux fuel rest
      else String.mk (c :: run) :: findallPat1Aux fuel (rest.drop run.length)
    else findallPat1Aux fuel rest

/-- Matches of the first filename regex of `_extract_filenames`. -/
def findallPat1 (cs : List Char) : List String :=
  findallPat1Aux cs.length cs

/-- First character class of the second filename regex: alphanumerics,
underscore, dot, a literal backslash (the raw-string doubled backslash),
slash and hyphen. -/
def pat2ClassA (c : Char) : Bool :=
  c.isAlphanum || c = '_' || c = '.' || c = Char.ofNat 92 || c = '/' || c = '-'

/-- Character class `[A-Za-z0-9_.-]` of the second filename regex. -/
def pat2ClassB (c : Char) : Bool :=
  c.isAlphanum || c = '_' || c = '.' || c = '-'

/-- Attempt of the second filename regex at the current position with the
greedy first-class run consuming exactly `k` characters: the source
pattern (raw string with doubled backslashes) then requires one literal
backslash, one dot-matched character (any character except newline) and a
nonempty greedy `[A-Za-z0-9_.-]+` run.  Returns the match and the rest of the
text after it. -/
def pat2TryK (cs : List Char) (k : Nat) : Option (List Char × List Char) :=
  if cs.getD k (Char.ofNat 0) = Char.ofNat 92 then
    match cs.drop (k + 1) with
    | [] => none
    | d :: rest =>
      if d = Char.ofNat 10 then none
      else
        let bRun := rest.takeWhile pat2ClassB
        if bRun.isEmpty then none
        else some (cs.take (k + 2) ++ bRun, rest.drop bRun.length)
  else none

/-- Backtracking of the greedy first-class run: try the lengths
`k, k-1, ..., 1` in order and keep the first full match. -/
def pat2Search (cs : List Char) : Nat → Option (List Char × List Char)
  | 0 => none
  | k + 1 =>
    match pat2TryK cs (k + 1) with
    | some res => some res
    | none => pat2Search cs k

/-- Match attempt of the second filename regex at the current position: the
greedy first class run has maximal length `r`; since the literal backslash is
itself in the first class, the first class part can consume at most `r - 1`
characters before the required backslash. -/
def pat2MatchAt (cs : List Char) : Option (List Char × List Char) :=
  let r := (cs.takeWhile pat2ClassA).length
  if r = 0 then none else pat2Search cs (r - 1)

/-- Scanner for `re.findall` with the second filename pattern, with the same
fuel convention as `findallPat1Aux`. -/
def findallPat2Aux : Nat → List Char → List String
  | 0, _ => []
  | _, [] => []
  | fuel + 1, c :: rest =>
    match pat2MatchAt (c :: rest) with
    | some (m, suffix) => String.mk m :: findallPat2Aux fuel suffix
    | none => findallPat2Aux fuel rest

/-- Matches of the second filename regex of `_extract_filenames`. -/
def findallPat2 (cs : List Char) : List String :=
  findallPat2Aux cs.length cs

/-- Python string strip with the two quote characters as argument: remove
single and double quotes from both ends of a candidate. -/
def pyStripQuotes (s : String) : String :=
  let qs : List Char := [Char.ofNat 39, Char.ofNat 34]
  String.mk (((s.data.dropWhile qs.contains).reverse.dropWhile qs.contains).reverse)

/-- De-duplication of the cleaned candidates keeping first occurrences
(the `seen` set / `unique` list loop of `_extract_filenames`). -/
def dedupFirst : List String → List String → List String
  | [], _ => []
  | x :: rest, seen =>
    if seen.contains x then dedupFirst rest seen
    else x :: dedupFirst rest (x :: seen)

/-- Best-effort extraction of filenames/paths from an action string
(code.py `_extract_filenames`): the two regex passes, then quote stripping
and first-seen de-duplication. -/
def _extract_filenames (text : String) : List String :=
  let candidates := findallPat1 text.data ++ findallPat2 text.data
  dedupFirst (candidates.map pyStripQuotes) []

/-- Case-insensitive substring containment of any keyword
(code.py `_has_keyword`). -/
def _has_keyword (text : String) (keywords : List String) : Bool :=
  let lowered := pyLower text
  keywords.any (fun key => containsSub lowered key)

/-- Python `step.get(key)` on a step dictionary (keys are unique in a
JSON-decoded dictionary; lookup takes the first matching field). -/
def pyGet (step : Json) (key : String) : Option Json :=
  match step with
  | .obj fields => (fields.find? (fun kv => kv.1 == key)).map (fun kv => kv.2)
  | _ => none

/-- Loop `for key in keys: if key in step and step[key]: return some step[key]`
returning the first present and truthy field. -/
def firstTruthyField (step : Json) : List String → Option Json
  | [] => none
  | key :: rest =>
    match pyGet step key with
    | some v => if truthy v then some v else firstTruthyField step rest
    | none => firstTruthyField step rest

/-- Python `step.get(k1) or step.get(k2) or ... or ""`: the first truthy field
among the keys, or the empty string. -/
def pyGetOrChain (step : Json) : List String → Json
  | [] => Json.str ""
  | key :: rest =>
    match pyGet step key with
    | some v => if truthy v then v else pyGetOrChain step rest
    | none => pyGetOrChain step rest

/-- Best-effort extraction of the tool name for a step
(code.py `_get_tool_name`).  The final line of the source,
`header.split()[0] if header else ""`, raises IndexError when the header is
truthy (nonempty) but consists only of whitespace, so `split()` is empty;
that exception is modelled by the `Except.error` branch. -/
def _get_tool_name (step : Json) : Except String String :=
  match firstTruthyField step ["tool", "tool_name", "name"] with
  | some v => .ok (pyStr v)
  | none =>
    let action_text := pyStr (pyGetOrChain step ["action", "command"])
    let header := _action_header action_text
    if header = "" then .ok ""
    else
      match pySplitWs header with
      | [] => .error "list index out of range"
      | t :: _ => .ok t

/-- Best-effort extraction of the command/arguments issued in a step
(code.py `_get_command_text`). -/
def _get_command_text (step : Json) : String :=
  match firstTruthyField step ["command", "args", "input"] with
  | some v => pyStr v
  | none => _action_header (pyStr (pyGetOrChain step ["action"]))

/-- Resolution of the raw action text of a step from the `action`, `tool` and
`command` fields (the first statement of `_is_reproduction_step`). -/
def _raw_action_text (step : Json) : String :=
  pyStr (pyGetOrChain step ["action", "tool", "command"])

/-- Determine whether a step appears to create reproduction code
(code.py `_is_reproduction_step`).  The early-return chain of the source is
equivalent to a conjunction of the creation test with the disjunction of the
three keyword checks. -/
def _is_reproduction_step (step : Json) : Bool :=
  let header := _action_header (_raw_action_text step)
  _is_creation_action header &&
    (let filenames := _extract_filenames header
     (!filenames.isEmpty && _has_keyword (pyJoin " " filenames) FILE_KEYWORDS)
      || _has_keyword header FILE_KEYWORDS
      || (let thought_text := pyStr (pyGetOrChain step ["thought"])
          thought_text != "" && _has_keyword thought_text THOUGHT_KEYWORDS))

/-- Lexicographic (code-point) comparison of character lists, non-strict;
models Python string comparison as used by `sorted`. -/
def lexLeChars : List Char → List Char → Bool
  | [], _ => true
  | _ :: _, [] => false
  | a :: as, b :: bs => if a < b then true else if b < a then false else lexLeChars as bs

/-- Lexicographic (code-point) comparison of character lists, strict. -/
def lexLtChars : List Char → List Char → Bool
  | [], [] => false
  | [], _ :: _ => true
  | _ :: _, [] => false
  | a :: as, b :: bs => if a < b then true else if b < a then false else lexLtChars as bs

/-- Python `a <= b` on strings. -/
def strLe (a b : String) : Bool := lexLeChars a.data b.data

/-- Python `a < b` on strings. -/
def strLt (a b : String) : Bool := lexLtChars a.data b.data

/-- Insertion of a string into a sorted list (worker of `sortStrings`). -/
def insertStr (x : String) : List String → List String
  | [] => [x]
  | y :: rest => if strLe x y then x :: y :: rest else y :: insertStr x rest

/-- Insertion sort of strings; models Python `sorted` on the keys of a
dictionary (stable, ascending, lexicographic by code points). -/
def sortStrings : List String → List String
  | [] => []
  | x :: rest => insertStr x (sortStrings rest)

/-- Insertion of a natural number into a sorted list (worker of `sortNats`). -/
def insertNat (x : Nat) : List Nat → List Nat
  | [] => [x]
  | y :: rest => if x ≤ y then x :: y :: rest else y :: insertNat x rest

/-- Insertion sort of naturals; models Python `sorted` on step indices. -/
def sortNats : List Nat → List Nat
  | [] => []
  | x :: rest => insertNat x (sortNats rest)

/-- Python `sorted(set(xs))` on step indices. -/
def sortedSetNat (xs : List Nat) : List Nat :=
  sortNats xs.dedup

/-- Loop of `locate_reproduction_code`: 1-based indices (the loop enumerates
from `start=1`) of the steps classified by `_is_reproduction_step`. -/
def matchIndices : List Json → Nat → List Nat
  | [], _ => []
  | step :: rest, idx =>
    if _is_reproduction_step step then idx :: matchIndices rest (idx + 1)
    else matchIndices rest (idx + 1)

/-- Classification part of `locate_reproduction_code` (code.py lines 247-255),
applied to the loaded step sequence. -/
def locate_reproduction_code_core (steps : List Json) : List Nat :=
  sortedSetNat (matchIndices steps 1)

/-- Explicit search tools of `locate_search`. -/
def searchToolNames : List String := ["find_file", "search_file", "search_dir"]

/-- Shell search/navigation verbs of the `shell_markers` regex. -/
def shellVerbs : List String :=
  ["find", "grep", "rg", "fd", "ls", "cd", "cat", "tree", "ag", "pwd"]

/-- Regex word characters (`\w`): alphanumerics and underscore. -/
def isWordChar (c : Char) : Bool := c.isAlphanum || c = '_'

/-- Occurrence of `verb` at position `i` of `cs` with a word boundary on both
sides, as matched by the `\b(...)\b` regex of `locate_search`. -/
def wordOccAt (cs : List Char) (verb : List Char) (i : Nat) : Bool :=
  verb.isPrefixOf (cs.drop i)
    && (decide (i = 0) || !isWordChar (cs.getD (i - 1) ' '))
    && (decide (cs.length ≤ i + verb.length) || !isWordChar (cs.getD (i + verb.length) ' '))

/-- Truthiness of `shell_markers.search(text)`: some verb occurs somewhere in
the text with word boundaries on both sides. -/
def shellMarkerSearch (s : String) : Bool :=
  shellVerbs.any (fun verb =>
    (List.range s.length).any (fun i => wordOccAt s.data verb.data i))

/-- Per-step decision of `locate_search` (conditions A, C, B of the loop body,
a step being accepted when any of them holds); the tool-name resolution may
raise, which propagates. -/
def searchStep (step : Json) : Except String Bool :=
  match _get_tool_name step with
  | .error e => .error e
  | .ok tn =>
    let tool_name := pyLower tn
    let command_text := _get_command_text step
    let command_lower := pyLower command_text
    .ok (searchToolNames.contains tool_name
      || (tool_name == "str_replace_editor" && containsSub command_lower "view")
      || shellMarkerSearch command_lower)

/-- Loop of `locate_search` over the steps, enumerating from `start=1`. -/
def searchIndices : List Json → Nat → Except String (List Nat)
  | [], _ => .ok []
  | step :: rest, idx =>
    match searchStep step with
    | .error e => .error e
    | .ok b =>
      match searchIndices rest (idx + 1) with
      | .error e => .error e
      | .ok tail => .ok (if b then idx :: tail else tail)

/-- Classification part of `locate_search` (code.py lines 273-300), applied to
the loaded step sequence. -/
def locate_search_core (steps : List Json) : Except String (List Nat) :=
  match searchIndices steps 1 with
  | .error e => .error e
  | .ok found => .ok (sortedSetNat found)

/-- Dictionary update `counts[k] = counts.get(k, 0) + 1`: bump the entry of an
existing key in place, else append the key at the end with count 1. -/
def bumpCount : List (String × Nat) → String → List (String × Nat)
  | [], k => [(k, 1)]
  | kv :: rest, k =>
    if kv.1 = k then (kv.1, kv.2 + 1) :: rest else kv :: bumpCount rest k

/-- Loop of `locate_tool_use` over the steps: strip the resolved tool name,
skip steps with an empty one, count the others. -/
def countSteps : List Json → List (String × Nat) → Except String (List (String × Nat))
  | [], counts => .ok counts
  | step :: rest, counts =>
    match _get_tool_name step with
    | .error e => .error e
    | .ok name =>
      let tool_name := pyStrip name
      if tool_name = "" then countSteps rest counts
      else countSteps rest (bumpCount counts tool_name)

/-- Keys of a counts dictionary in insertion order. -/
def keysOf (counts : List (String × Nat)) : List String :=
  counts.map (fun kv => kv.1)

/-- Python `counts[k]` for a key of the dictionary (0 never occurs in use). -/
def lookupCount (counts : List (String × Nat)) (k : String) : Nat :=
  match counts.find? (fun kv => kv.1 == k) with
  | some kv => kv.2
  | none => 0

/-- Dictionary comprehension `(k: counts[k] for k in sorted(counts))`. -/
def sortCounts (counts : List (String × Nat)) : List (String × Nat) :=
  (sortStrings (keysOf counts)).map (fun k => (k, lookupCount counts k))

/-- Classification part of `locate_tool_use` (code.py lines 316-327), applied
to the loaded step sequence. -/
def locate_tool_use_core (steps : List Json) : Except String (List (String × Nat)) :=
  match countSteps steps [] with
  | .error e => .error e
  | .ok counts => .ok (sortCounts counts)

/-- Lookup of a key in the fields of a JSON object (`key in raw` plus
`raw[key]`; keys of a JSON-decoded dictionary are unique). -/
def lookupField (fields : List (String × Json)) (key : String) : Option Json :=
  (fields.find? (fun kv => kv.1 == key)).map (fun kv => kv.2)

/-- Python `isinstance(v, list) and v` (a non-empty list value). -/
def isNonemptyArr : Json → Bool
  | .arr (_ :: _) => true
  | _ => false

/-- Elements of a JSON array value. -/
def arrElems : Json → List Json
  | .arr l => l
  | _ => []

/-- Envelope handling of `load_trajectory` (code.py lines 101-117): a mapping
is searched for a list under `trajectory`, then `steps`, then the first
non-empty list value in field order; a list is used directly; anything else
is an error. -/
def extractStepsList (raw : Json) : Except String (List Json) :=
  match raw with
  | .obj fields =>
    match lookupField fields "trajectory" with
    | some (Json.arr l) => .ok l
    | _ =>
      match lookupField fields "steps" with
      | some (Json.arr l) => .ok l
      | _ =>
        match fields.find? (fun kv => isNonemptyArr kv.2) with
        | some kv => .ok (arrElems kv.2)
        | none => .error "Unexpected trajectory format"
  | .arr l => .ok l
  | _ => .error "Unsupported trajectory data"

/-- Validation loop of `load_trajectory` (code.py lines 119-124): every
element must be a mapping, with the error naming the 0-based position. -/
def normalizeSteps : List Json → Nat → Except String (List Json)
  | [], _ => .ok []
  | step :: rest, idx =>
    match step with
    | .obj fields =>
      match normalizeSteps rest (idx + 1) with
      | .error e => .error e
      | .ok tail => .ok (Json.obj fields :: tail)
    | _ => .error ("Step " ++ toString idx ++ " is not an object")

/-- JSONL fallback loop of `load_trajectory` (code.py lines 85-96): enumerate
the lines from 1, skip blank lines, parse each stripped remaining line, and
fail on the first malformed line naming its number. -/
def jsonlLines (parse : String → Option Json) : List String → Nat → Except String (List Json)
  | [], _ => .ok []
  | line :: rest, lineno =>
    let stripped := pyStrip line
    if stripped = "" then jsonlLines parse rest (lineno + 1)
    else
      match parse stripped with
      | none => .error ("Failed to parse JSONL line " ++ toString lineno)
      | some entry =>
        match jsonlLines parse rest (lineno + 1) with
        | .error e => .error e
        | .ok tail => .ok (entry :: tail)

/-- Load a trajectory file that may be JSON or JSONL
(code.py `load_trajectory`), with `json.loads` modelled by `parse` (`none`
models `json.JSONDecodeError`).  In the fallback, zero parsed entries is the
`No JSON objects found` error, and the collected entries play the role of the
top-level list. -/
def load_trajectory (parse : String → Option Json) (text : String) : Except String (List Json) :=
  match parse text with
  | some raw =>
    match extractStepsList raw with
    | .error e => .error e
    | .ok steps => normalizeSteps steps 0
  | none =>
    match jsonlLines parse (pySplitlines text) 1 with
    | .error e => .error e
    | .ok [] => .error "No JSON objects found"
    | .ok (entry :: entries) =>
      match extractStepsList (Json.arr (entry :: entries)) with
      | .error e => .error e
      | .ok steps => normalizeSteps steps 0

/-- Outcome of the underlying append to the audit-log file. -/
inductive WriteOutcome where
  | success : WriteOutcome
  | failure : WriteOutcome

/-- Append a simple line to the provided log (code.py `_append_log_line`):
on failure of the underlying write, the exception is caught and downgraded to
a warning, leaving the log unchanged and never propagating. -/
def _append_log_line (w : WriteOutcome) (log : List String) (line : String) : List String :=
  match w with
  | .success => log ++ [line]
  | .failure => log

/-- Python `str` of a list of integers, as interpolated into the log line. -/
def pyStrNatList (xs : List Nat) : String :=
  "[" ++ pyJoin ", " (xs.map toString) ++ "]"

/-- Python `str` of the sorted counts dictionary, as interpolated into the
log line of `locate_tool_use`. -/
def pyStrCountsDict (m : List (String × Nat)) : String :=
  "\x7b" ++ pyJoin ", " (m.map (fun kv => pyStrRepr kv.1 ++ ": " ++ toString kv.2)) ++ "\x7d"

/-- Classification and logging of `locate_reproduction_code` on the loaded
steps: the result together with the updated log. -/
def locate_reproduction_code_run (w : WriteOutcome) (log : List String)
    (instance_id : String) (steps : List Json) : List Nat × List String :=
  let result := locate_reproduction_code_core steps
  (result, _append_log_line w log (instance_id ++ ": " ++ pyStrNatList result))

/-- Classification and logging of `locate_search` on the loaded steps. -/
def locate_search_run (w : WriteOutcome) (log : List String)
    (instance_id : String) (steps : List Json) : Except String (List Nat) × List String :=
  match locate_search_core steps with
  | .error e => (.error e, log)
  | .ok result => (.ok result, _append_log_line w log (instance_id ++ ": " ++ pyStrNatList result))

/-- Classification and logging of `locate_tool_use` on the loaded steps. -/
def locate_tool_use_run (w : WriteOutcome) (log : List String)
    (instance_id : String) (steps : List Json) : Except String (List (String × Nat)) × List String :=
  match locate_tool_use_core steps with
  | .error e => (.error e, log)
  | .ok result => (.ok result, _append_log_line w log (instance_id ++ ": " ++ pyStrCountsDict result))

/-- Predicate of a step whose resolved tool name is non-empty after
stripping (the steps actually counted by `locate_tool_use`). -/
def stepHasTool (step : Json) : Bool :=
  match _get_tool_name step with
  | .ok name => pyStrip name != ""
  | .error _ => false

/-- Concrete parse table mirroring `json.loads` on the text `[]`. -/
def parseEmptyListDoc : String → Option Json :=
  fun s => if s == "[]" then some (Json.arr []) else none

/-- Concrete parse table mirroring `json.loads` on the one-step documents of
the round-trip counterexample: the JSON-list storage `[\x7b\x7d]` of one empty
step object, and the JSONL storage `\x7b\x7d` of the same object (a one-line
JSONL file is itself a valid JSON document, so the whole-file parse
succeeds). -/
def parseOneStepDocs : String → Option Json :=
  fun s =>
    if s == "[\x7b\x7d]" then some (Json.arr [Json.obj []])
    else if s == "\x7b\x7d" then some (Json.obj [])
    else none

/-- Step sequence of the round-trip witness: two step objects. -/
def rtSteps : List Json :=
  [Json.obj [("action", Json.str "ls")], Json.obj [("action", Json.str "pwd")]]

/-- Concrete parse table for the round-trip witness, mirroring the shape of
`json.loads` behaviour: the list document `L` parses to the two-step list,
the whole two-line JSONL text fails to parse as one document, and each of its
lines parses to the corresponding step object. -/
def parseRoundTrip : String → Option Json :=
  fun s =>
    if s == "L" then some (Json.arr rtSteps)
    else if s == "A" then some (Json.obj [("action", Json.str "ls")])
    else if s == "B" then some (Json.obj [("action", Json.str "pwd")])
    else none

/-- Concrete parse table for the loader witness: the whole text ` A` (with a
leading blank character) is not a valid JSON document, while its stripped
line `A` parses to one step object. -/
def parseFallbackDoc : String → Option Json :=
  fun s => if s == "A" then some (Json.obj []) else none

/-- Step with tool field `bash` (scenario 6). -/
def stepToolBash : Json := Json.obj [("tool", Json.str "bash")]

/-- Step with no resolvable tool name (scenario 6). -/
def stepNoTool : Json := Json.obj []

/-- Claim C3 (code bug): the spec states that tool-name resolution is total
and yields the empty string when no explicit field and no non-empty
action/command text exists, including whitespace-only action text; but on the
step with action text a single blank, the header is truthy while
`header.split()` is empty, so `header.split()[0]` raises IndexError. -/
theorem claim_c3_bug_eval :
    _get_tool_name (Json.obj [("action", Json.str " ")]) =
      Except.error "list index out of range" := rfl

/-- Claim C4 (code bug): on the text of the example given by the spec, the filename
extraction returns `["/tmp/te"]` — not a token containing `test_repro.py` —
because the doubled backslashes in the raw-string regexes of the source make the
first pass stop at the letter s (while allowing whitespace) and make the
second pass require a literal backslash. -/
theorem claim_c4_bug_eval :
    _extract_filenames "str_replace_editor create /tmp/test_repro.py" = ["/tmp/te"]
    ∧ (_extract_filenames "str_replace_editor create /tmp/test_repro.py").all
        (fun tok => !containsSub tok "test_repro.py") = true :=
  ⟨rfl, rfl⟩

/-- Claim C6: a step whose action is exactly
`str_replace_editor create /tmp/test_repro.py` and which has no thought field
is classified as a reproduction step, and its 1-based index appears in the
result of locate_reproduction_code. -/
theorem claim_c6 :
    _is_reproduction_step
        (Json.obj [("action", Json.str "str_replace_editor create /tmp/test_repro.py")]) = true
    ∧ locate_reproduction_code_core
        [Json.obj [("action", Json.str "str_replace_editor create /tmp/test_repro.py")]] = [1] :=
  ⟨rfl, rfl⟩

/-- Claim C7: a step with action `grep -r TODO src/` is classified by
locate_search as a search step, while a step with action `category` is not,
even though `category` contains the letters `cat` as a substring: the
shell-verb rule matches only whole words under word-boundary matching. -/
theorem claim_c7 :
    locate_search_core [Json.obj [("action", Json.str "grep -r TODO src/")]] = Except.ok [1]
    ∧ locate_search_core [Json.obj [("action", Json.str "category")]] = Except.ok []
    ∧ containsSub "category" "cat" = true
    ∧ shellMarkerSearch "category" = false :=
  ⟨rfl, rfl, rfl, rfl⟩

/-- Claim C9: a failure while appending an audit-log line never surfaces to
the caller of any of the three classifiers: for every loaded trajectory, the
result component is exactly the same whether the underlying log write fails
or succeeds. -/
theorem claim_c9 (steps : List Json) (log : List String) (instance_id : String) :
    (locate_reproduction_code_run WriteOutcome.failure log instance_id steps).1 =
      (locate_reproduction_code_run WriteOutcome.success log instance_id steps).1
    ∧ (locate_search_run WriteOutcome.failure log instance_id steps).1 =
      (locate_search_run WriteOutcome.success log instance_id steps).1
    ∧ (locate_tool_use_run WriteOutcome.failure log instance_id steps).1 =
      (locate_tool_use_run WriteOutcome.success log instance_id steps).1 := by
  refine ⟨rfl, ?_, ?_⟩
  · cases h : locate_search_core steps <;> simp [locate_search_run, h]
  · cases h : locate_tool_use_core steps <;> simp [locate_tool_use_run, h]

/-- Successful validation returns exactly the input list, whose elements are
then all mappings. -/
theorem normalizeSteps_ok : ∀ (l : List Json) (i : Nat) (r : List Json),
    normalizeSteps l i = Except.ok r → r = l ∧ ∀ s ∈ l, s.isObj = true := by
  intro l
  induction l with
  | nil =>
    intro i r h
    simp only [normalizeSteps, Except.ok.injEq] at h
    subst h
    exact ⟨rfl, by simp⟩
  | cons s rest ih =>
    intro i r h
    cases s with
    | obj fields =>
      simp only [normalizeSteps] at h
      cases hrec : normalizeSteps rest (i + 1) with
      | error e => rw [hrec] at h; simp at h
      | ok tail =>
        rw [hrec] at h
        simp only [Except.ok.injEq] at h
        obtain ⟨htail, hobjs⟩ := ih (i + 1) tail hrec
        subst htail
        subst h
        refine ⟨rfl, ?_⟩
        intro x hx
        rcases List.mem_cons.mp hx with h1 | h2
        · subst h1; rfl
        · exact hobjs x h2
    | null => simp [normalizeSteps] at h
    | bool b => simp [normalizeSteps] at h
    | num n => simp [normalizeSteps] at h
    | str s2 => simp [normalizeSteps] at h
    | arr xs => simp [normalizeSteps] at h

/-- Validation succeeds on a list of mappings and returns it unchanged. -/
theorem normalizeSteps_of_objs : ∀ (l : List Json) (i : Nat),
    (∀ s ∈ l, s.isObj = true) → normalizeSteps l i = Except.ok l := by
  intro l
  induction l with
  | nil => intro i _; rfl
  | cons s rest ih =>
    intro i hobjs
    cases s with
    | obj fields =>
      simp only [normalizeSteps]
      rw [ih (i + 1) (fun x hx => hobjs x (List.mem_cons_of_mem _ hx))]
    | null => have := hobjs _ (List.mem_cons_self _ _); simp [Json.isObj] at this
    | bool b => have := hobjs _ (List.mem_cons_self _ _); simp [Json.isObj] at this
    | num n => have := hobjs _ (List.mem_cons_self _ _); simp [Json.isObj] at this
    | str s2 => have := hobjs _ (List.mem_cons_self _ _); simp [Json.isObj] at this
    | arr xs => have := hobjs _ (List.mem_cons_self _ _); simp [Json.isObj] at this

/-- JSONL fallback: when the stripped non-blank lines parse pointwise to the
given steps, the line loop succeeds with exactly those steps. -/
theorem jsonlLines_of_parses (parse : String → Option Json) :
    ∀ (lines : List String) (n : Nat) (steps : List Json),
      (((lines.map pyStrip).filter (fun l => l != "")).map parse = steps.map some) →
      jsonlLines parse lines n = Except.ok steps := by
  intro lines
  induction lines with
  | nil =>
    intro n steps h
    simp only [List.map_nil, List.filter_nil] at h
    cases steps with
    | nil => rfl
    | cons a as => simp at h
  | cons line rest ih =>
    intro n steps h
    simp only [List.map_cons, List.filter_cons] at h
    by_cases hs : pyStrip line = ""
    · rw [hs] at h
      simp only [bne_self_eq_false, if_neg Bool.false_ne_true] at h
      simp only [jsonlLines, if_pos hs]
      exact ih (n + 1) steps h
    · have hsb : (pyStrip line != "") = true := bne_iff_ne.mpr hs
      rw [hsb] at h
      simp only [if_pos rfl, List.map_cons] at h
      cases steps with
      | nil => simp at h
      | cons s0 srest =>
        simp only [List.map_cons] at h
        injection h with hhead htail
        simp only [jsonlLines, if_neg hs, hhead]
        rw [ih (n + 1) srest htail]

/-- Claim C1 (amended): on success every element of the loaded sequence is a
mapping, and on the JSONL fallback path (whole-file parse failed) the
sequence is additionally non-empty; a successfully parsed top-level empty
list, in contrast, loads as an empty result (see the counterexample). -/
theorem claim_c1_amended (parse : String → Option Json) (text : String) (steps : List Json)
    (h : load_trajectory parse text = Except.ok steps) :
    (∀ s ∈ steps, s.isObj = true) ∧ (parse text = none → steps ≠ []) := by
  cases hp : parse text with
  | some raw =>
    simp only [load_trajectory, hp] at h
    refine ⟨?_, fun hnone => Option.noConfusion hnone⟩
    cases hex : extractStepsList raw with
    | error e => rw [hex] at h; simp at h
    | ok l =>
      rw [hex] at h
      obtain ⟨heq, hobjs⟩ := normalizeSteps_ok l 0 steps h
      subst heq
      exact hobjs
  | none =>
    simp only [load_trajectory, hp] at h
    cases hjl : jsonlLines parse (pySplitlines text) 1 with
    | error e => rw [hjl] at h; simp at h
    | ok entries =>
      rw [hjl] at h
      cases entries with
      | nil => simp at h
      | cons entry entries2 =>
        simp only [extractStepsList] at h
        obtain ⟨heq, hobjs⟩ := normalizeSteps_ok (entry :: entries2) 0 steps h
        subst heq
        exact ⟨hobjs, fun _ => List.cons_ne_nil _ _⟩

/-- Witness for claim C1 at a concrete fallback load: the text ` A` fails the
whole-file parse, its one line parses to one step object, and the loaded
sequence is that non-empty all-mapping sequence. -/
theorem claim_c1_amended_witness :
    (∀ s ∈ [Json.obj []], s.isObj = true)
    ∧ (parseFallbackDoc " A" = none → ([Json.obj []] : List Json) ≠ []) :=
  claim_c1_amended parseFallbackDoc " A" [Json.obj []] rfl

/-- Counterexample to claim C1 as stated: a file whose top-level parse yields
an empty JSON list loads successfully as an empty step sequence, not as an
error. -/
theorem claim_c1_counterexample :
    load_trajectory parseEmptyListDoc "[]" = Except.ok [] := rfl

/-- Counterexample to claim C2 as stated, at N = 1: the single empty step
object stored as a JSON list loads fine, but stored as one newline-delimited
JSON object the whole file is itself a valid JSON document, so the loader
takes the mapping-envelope path and fails — the two storages do not load
identically. -/
theorem claim_c2_counterexample :
    load_trajectory parseOneStepDocs "[\x7b\x7d]" = Except.ok [Json.obj []]
    ∧ load_trajectory parseOneStepDocs "\x7b\x7d" = Except.error "Unexpected trajectory format" :=
  ⟨rfl, rfl⟩

/-- Claim C2 (amended): for a sequence of step mappings stored both as one
JSON list document and as newline-delimited JSON objects, the two loads
succeed and agree, provided the whole JSONL text is not itself a valid JSON
document (which is the case exactly when N is at least 2, since concatenated
JSON documents on separate lines do not parse as one). -/
theorem claim_c2_amended (parse : String → Option Json) (listText jsonlText : String)
    (steps : List Json)
    (hobjs : ∀ s ∈ steps, s.isObj = true)
    (hne : steps ≠ [])
    (hlist : parse listText = some (Json.arr steps))
    (hfail : parse jsonlText = none)
    (hlines : (((pySplitlines jsonlText).map pyStrip).filter (fun l => l != "")).map parse
      = steps.map some) :
    load_trajectory parse listText = Except.ok steps
    ∧ load_trajectory parse jsonlText = Except.ok steps := by
  constructor
  · simp only [load_trajectory, hlist, extractStepsList]
    exact normalizeSteps_of_objs steps 0 hobjs
  · simp only [load_trajectory, hfail]
    rw [jsonlLines_of_parses parse (pySplitlines jsonlText) 1 steps hlines]
    cases steps with
    | nil => exact absurd rfl hne
    | cons s ss =>
      simp only [extractStepsList]
      exact normalizeSteps_of_objs (s :: ss) 0 hobjs

/-- Witness for the amended claim C2 on a concrete two-step trajectory stored
as the list document `L` and as the two-line JSONL text `A\nB`. -/
theorem claim_c2_amended_witness :
    load_trajectory parseRoundTrip "L" = Except.ok rtSteps
    ∧ load_trajectory parseRoundTrip "A\nB" = Except.ok rtSteps :=
  claim_c2_amended parseRoundTrip "L" "A\nB" rtSteps
    (by decide) (List.cons_ne_nil _ _) rfl rfl rfl

/-- Membership is preserved by sorted insertion of an index. -/
theorem mem_insertNat (x y : Nat) : ∀ l : List Nat, x ∈ insertNat y l ↔ x = y ∨ x ∈ l := by
  intro l
  induction l with
  | nil => simp [insertNat]
  | cons z rest ih =>
    simp only [insertNat]
    by_cases h : y ≤ z
    · rw [if_pos h]; simp [List.mem_cons]
    · rw [if_neg h]
      simp only [List.mem_cons, ih]
      tauto

/-- Membership is preserved by the index sort. -/
theorem mem_sortNats (x : Nat) : ∀ l : List Nat, x ∈ sortNats l ↔ x ∈ l := by
  intro l
  induction l with
  | nil => simp [sortNats]
  | cons y rest ih => simp [sortNats, mem_insertNat, ih]

/-- Membership in `sorted(set(xs))` is membership in `xs`. -/
theorem mem_sortedSetNat (x : Nat) (l : List Nat) : x ∈ sortedSetNat l ↔ x ∈ l := by
  simp [sortedSetNat, mem_sortNats, List.mem_dedup]

/-- Characterization of the indices collected by the reproduction loop:
exactly the offsets of steps classified as reproduction steps, shifted by
the enumeration base. -/
theorem mem_matchIndices : ∀ (steps : List Json) (i k : Nat),
    k ∈ matchIndices steps i ↔
      ∃ j s, steps.get? j = some s ∧ k = i + j ∧ _is_reproduction_step s = true := by
  intro steps
  induction steps with
  | nil => intro i k; simp [matchIndices]
  | cons s0 rest ih =>
    intro i k
    constructor
    · intro hk
      by_cases hrep : _is_reproduction_step s0 = true
      · rw [matchIndices, if_pos hrep] at hk
        rcases List.mem_cons.mp hk with h1 | h2
        · exact ⟨0, s0, rfl, by omega, hrep⟩
        · obtain ⟨j, s, hget, hkk, hr⟩ := (ih (i + 1) k).mp h2
          exact ⟨j + 1, s, hget, by omega, hr⟩
      · rw [matchIndices, if_neg hrep] at hk
        obtain ⟨j, s, hget, hkk, hr⟩ := (ih (i + 1) k).mp hk
        exact ⟨j + 1, s, hget, by omega, hr⟩
    · rintro ⟨j, s, hget, hkk, hr⟩
      cases j with
      | zero =>
        rw [List.get?_cons_zero] at hget
        injection hget with hs
        subst hs
        subst hkk
        rw [matchIndices, if_pos hr]
        simp
      | succ j2 =>
        rw [List.get?_cons_succ] at hget
        have hmem : k ∈ matchIndices rest (i + 1) :=
          (ih (i + 1) k).mpr ⟨j2, s, hget, by omega, hr⟩
        rw [matchIndices]
        by_cases hrep : _is_reproduction_step s0 = true
        · rw [if_pos hrep]; exact List.mem_cons_of_mem _ hmem
        · rw [if_neg hrep]; exact hmem

/-- Claim C5: a step whose header (from the resolved raw action text) is not
a creation action is never classified as a reproduction step, and its
1-based index never appears in the result of locate_reproduction_code,
regardless of any keyword matches. -/
theorem claim_c5 (steps : List Json) (i : Nat) (h : i < steps.length)
    (hnc : _is_creation_action (_action_header (_raw_action_text (steps.get ⟨i, h⟩))) = false) :
    _is_reproduction_step (steps.get ⟨i, h⟩) = false
    ∧ (i + 1) ∉ locate_reproduction_code_core steps := by
  have hfalse : _is_reproduction_step (steps.get ⟨i, h⟩) = false := by
    simp only [_is_reproduction_step]
    rw [hnc]
    simp
  refine ⟨hfalse, ?_⟩
  intro hmem
  rw [locate_reproduction_code_core, mem_sortedSetNat] at hmem
  obtain ⟨j, s, hget, hk, hrep⟩ := (mem_matchIndices steps 1 (i + 1)).mp hmem
  have hj : j = i := by omega
  subst hj
  rw [List.get?_eq_get h] at hget
  injection hget with hs
  subst hs
  rw [hfalse] at hrep
  cases hrep

/-- Witness for claim C5 on a concrete non-creating step (action `ls -la`). -/
theorem claim_c5_witness :
    _is_reproduction_step
        (([Json.obj [("action", Json.str "ls -la")]] : List Json).get ⟨0, by decide⟩) = false
    ∧ (0 + 1) ∉ locate_reproduction_code_core [Json.obj [("action", Json.str "ls -la")]] :=
  claim_c5 [Json.obj [("action", Json.str "ls -la")]] 0 (by decide) (by rfl)

/-- Totality of the lexicographic comparison. -/
theorem lexLeChars_total : ∀ as bs : List Char,
    lexLeChars as bs = true ∨ lexLeChars bs as = true := by
  intro as
  induction as with
  | nil => intro bs; left; rfl
  | cons a as2 ih =>
    intro bs
    cases bs with
    | nil => right; rfl
    | cons b bs2 =>
      simp only [lexLeChars]
      by_cases hab : a < b
      · left; rw [if_pos hab]
      · by_cases hba : b < a
        · right; rw [if_pos hba]
        · have heq : a = b := le_antisymm (not_lt.mp hba) (not_lt.mp hab)
          subst heq
          simp only [if_neg (lt_irrefl a)]
          exact ih bs2

/-- Transitivity of the lexicographic comparison. -/
theorem lexLeChars_trans : ∀ as bs cs : List Char,
    lexLeChars as bs = true → lexLeChars bs cs = true → lexLeChars as cs = true := by
  intro as
  induction as with
  | nil => intro bs cs _ _; rfl
  | cons a as2 ih =>
    intro bs cs h1 h2
    cases bs with
    | nil => simp [lexLeChars] at h1
    | cons b bs2 =>
      cases cs with
      | nil => simp [lexLeChars] at h2
      | cons c cs2 =>
        simp only [lexLeChars] at h1 h2 ⊢
        by_cases hab : a < b
        · by_cases hbc : b < c
          · rw [if_pos (lt_trans hab hbc)]
          · rw [if_neg hbc] at h2
            by_cases hcb : c < b
            · rw [if_pos hcb] at h2; cases h2
            · have heq : b = c := le_antisymm (not_lt.mp hcb) (not_lt.mp hbc)
              subst heq
              rw [if_pos hab]
        · rw [if_neg hab] at h1
          by_cases hba : b < a
          · rw [if_pos hba] at h1; cases h1
          · rw [if_neg hba] at h1
            have heq : a = b := le_antisymm (not_lt.mp hba) (not_lt.mp hab)
            subst heq
            by_cases hac : a < c
            · rw [if_pos hac]
            · rw [if_neg hac] at h2 ⊢
              by_cases hca : c < a
              · rw [if_pos hca] at h2; cases h2
              · rw [if_neg hca] at h2 ⊢
                exact ih bs2 cs2 h1 h2

/-- Strictness from non-strict comparison and difference. -/
theorem lexLtChars_of_le_of_ne : ∀ as bs : List Char,
    lexLeChars as bs = true → as ≠ bs → lexLtChars as bs = true := by
  intro as
  induction as with
  | nil =>
    intro bs h hne
    cases bs with
    | nil => exact absurd rfl hne
    | cons b bs2 => rfl
  | cons a as2 ih =>
    intro bs h hne
    cases bs with
    | nil => simp [lexLeChars] at h
    | cons b bs2 =>
      simp only [lexLeChars] at h
      simp only [lexLtChars]
      by_cases hab : a < b
      · rw [if_pos hab]
      · rw [if_neg hab] at h ⊢
        by_cases hba : b < a
        · rw [if_pos hba] at h; cases h
        · rw [if_neg hba] at h ⊢
          have heq : a = b := le_antisymm (not_lt.mp hba) (not_lt.mp hab)
          subst heq
          refine ih bs2 h ?_
          intro hx
          exact hne (by rw [hx])

/-- Membership is preserved by sorted insertion of a string. -/
theorem mem_insertStr (x y : String) : ∀ l : List String,
    x ∈ insertStr y l ↔ x = y ∨ x ∈ l := by
  intro l
  induction l with
  | nil => simp [insertStr]
  | cons z rest ih =>
    simp only [insertStr]
    by_cases h : strLe y z = true
    · rw [if_pos h]; simp [List.mem_cons]
    · rw [if_neg h]
      simp only [List.mem_cons, ih]
      tauto

/-- Sorted insertion preserves pairwise sortedness. -/
theorem pairwise_insertStr (x : String) : ∀ l : List String,
    l.Pairwise (fun a b => strLe a b = true) →
    (insertStr x l).Pairwise (fun a b => strLe a b = true) := by
  intro l
  induction l with
  | nil => intro _; simp [insertStr]
  | cons y rest ih =>
    intro hp
    rcases List.pairwise_cons.mp hp with ⟨hy, hrest⟩
    simp only [insertStr]
    by_cases hxy : strLe x y = true
    · rw [if_pos hxy]
      refine List.pairwise_cons.mpr ⟨?_, hp⟩
      intro z hz
      rcases List.mem_cons.mp hz with h1 | h2
      · subst h1; exact hxy
      · exact lexLeChars_trans x.data y.data z.data hxy (hy z h2)
    · rw [if_neg hxy]
      refine List.pairwise_cons.mpr ⟨?_, ih hrest⟩
      intro z hz
      rcases (mem_insertStr z x rest).mp hz with h1 | h2
      · subst h1
        rcases lexLeChars_total z.data y.data with hx | hx
        · exact absurd hx hxy
        · exact hx
      · exact hy z h2

/-- The string sort is pairwise sorted. -/
theorem pairwise_sortStrings : ∀ l : List String,
    (sortStrings l).Pairwise (fun a b => strLe a b = true) := by
  intro l
  induction l with
  | nil => simp [sortStrings]
  | cons x rest ih => exact pairwise_insertStr x _ ih

/-- Sorted insertion is a permutation of consing. -/
theorem insertStr_perm (x : String) : ∀ l : List String,
    (insertStr x l).Perm (x :: l) := by
  intro l
  induction l with
  | nil => exact List.Perm.refl _
  | cons y rest ih =>
    simp only [insertStr]
    by_cases h : strLe x y = true
    · rw [if_pos h]
    · rw [if_neg h]
      exact (ih.cons y).trans (List.Perm.swap x y rest)

/-- The string sort is a permutation of its input. -/
theorem sortStrings_perm : ∀ l : List String, (sortStrings l).Perm l := by
  intro l
  induction l with
  | nil => exact List.Perm.refl _
  | cons x rest ih => exact (insertStr_perm x (sortStrings rest)).trans (ih.cons x)

/-- On a duplicate-free list, the string sort is strictly sorted. -/
theorem pairwise_lt_sortStrings (l : List String) (hnd : l.Nodup) :
    (sortStrings l).Pairwise (fun a b => strLt a b = true) := by
  have hle := pairwise_sortStrings l
  have hnd2 : (sortStrings l).Nodup := ((sortStrings_perm l).nodup_iff).mpr hnd
  exact (hle.and hnd2).imp (fun hab =>
    lexLtChars_of_le_of_ne _ _ hab.1 (fun hdata => hab.2 (String.toList_inj.mp hdata)))

/-- Keys after bumping a present key are unchanged. -/
theorem keysOf_bumpCount_mem (k : String) : ∀ counts : List (String × Nat),
    k ∈ keysOf counts → keysOf (bumpCount counts k) = keysOf counts := by
  intro counts
  induction counts with
  | nil => intro h; simp [keysOf] at h
  | cons kv rest ih =>
    intro hmem
    simp only [bumpCount]
    by_cases h : kv.1 = k
    · rw [if_pos h]; rfl
    · rw [if_neg h]
      have hmem2 : k ∈ keysOf rest := by
        rcases List.mem_cons.mp hmem with h1 | h2
        · exact absurd h1.symm h
        · exact h2
      show kv.1 :: keysOf (bumpCount rest k) = kv.1 :: keysOf rest
      rw [ih hmem2]

/-- Keys after bumping an absent key gain that key at the end. -/
theorem keysOf_bumpCount_notMem (k : String) : ∀ counts : List (String × Nat),
    k ∉ keysOf counts → keysOf (bumpCount counts k) = keysOf counts ++ [k] := by
  intro counts
  induction counts with
  | nil => intro _; rfl
  | cons kv rest ih =>
    intro hmem
    simp only [bumpCount]
    by_cases h : kv.1 = k
    · exact absurd (h ▸ List.mem_cons_self _ _) hmem
    · rw [if_neg h]
      show kv.1 :: keysOf (bumpCount rest k) = (kv.1 :: keysOf rest) ++ [k]
      rw [ih (fun hx => hmem (List.mem_cons_of_mem _ hx))]
      rfl

/-- Bumping preserves duplicate-freeness of the keys. -/
theorem nodup_keysOf_bumpCount (k : String) (counts : List (String × Nat))
    (h : (keysOf counts).Nodup) : (keysOf (bumpCount counts k)).Nodup := by
  by_cases hmem : k ∈ keysOf counts
  · rw [keysOf_bumpCount_mem k counts hmem]; exact h
  · rw [keysOf_bumpCount_notMem k counts hmem]
    rw [List.nodup_append]
    exact ⟨h, List.nodup_singleton k, by simpa [List.disjoint_singleton] using hmem⟩

/-- Bumping a non-empty key preserves the per-entry invariant. -/
theorem bumpCount_mem_prop (k : String) (hk : k ≠ "") :
    ∀ counts : List (String × Nat),
      (∀ kv ∈ counts, kv.1 ≠ "" ∧ 1 ≤ kv.2) →
      ∀ kv ∈ bumpCount counts k, kv.1 ≠ "" ∧ 1 ≤ kv.2 := by
  intro counts
  induction counts with
  | nil =>
    intro _ kv hkv
    simp only [bumpCount, List.mem_singleton] at hkv
    subst hkv
    exact ⟨hk, le_refl 1⟩
  | cons kv0 rest ih =>
    intro hall kv hkv
    simp only [bumpCount] at hkv
    by_cases h : kv0.1 = k
    · rw [if_pos h] at hkv
      rcases List.mem_cons.mp hkv with h1 | h2
      · subst h1
        have := hall kv0 (List.mem_cons_self _ _)
        exact ⟨this.1, by omega⟩
      · exact hall kv (List.mem_cons_of_mem _ h2)
    · rw [if_neg h] at hkv
      rcases List.mem_cons.mp hkv with h1 | h2
      · exact h1 ▸ hall kv0 (List.mem_cons_self _ _)
      · exact ih (fun x hx => hall x (List.mem_cons_of_mem _ hx)) kv h2

/-- Bumping adds exactly one to the total of the counts. -/
theorem bumpCount_sum (k : String) : ∀ counts : List (String × Nat),
    ((bumpCount counts k).map (fun kv => kv.2)).sum
      = (counts.map (fun kv => kv.2)).sum + 1 := by
  intro counts
  induction counts with
  | nil => simp [bumpCount]
  | cons kv rest ih =>
    simp only [bumpCount]
    by_cases h : kv.1 = k
    · rw [if_pos h]; simp only [List.map_cons, List.sum_cons]; omega
    · rw [if_neg h]; simp only [List.map_cons, List.sum_cons, ih]; omega

/-- Invariant of the counting loop of `locate_tool_use`: starting from a
counts dictionary with duplicate-free keys whose entries have non-empty keys
and positive counts, a successful run preserves both properties and produces
a total equal to the initial total plus the number of processed steps with a
non-empty resolved tool name. -/
theorem countSteps_inv : ∀ (steps : List Json) (counts res : List (String × Nat)),
    (keysOf counts).Nodup →
    (∀ kv ∈ counts, kv.1 ≠ "" ∧ 1 ≤ kv.2) →
    countSteps steps counts = Except.ok res →
    (keysOf res).Nodup ∧ (∀ kv ∈ res, kv.1 ≠ "" ∧ 1 ≤ kv.2) ∧
      (res.map (fun kv => kv.2)).sum
        = (counts.map (fun kv => kv.2)).sum + steps.countP stepHasTool := by
  intro steps
  induction steps with
  | nil =>
    intro counts res hnd hall h
    simp only [countSteps, Except.ok.injEq] at h
    subst h
    exact ⟨hnd, hall, by simp⟩
  | cons step rest ih =>
    intro counts res hnd hall h
    simp only [countSteps] at h
    cases hname : _get_tool_name step with
    | error e => simp only [hname] at h; cases h
    | ok name =>
      simp only [hname] at h
      have hstep : stepHasTool step = (pyStrip name != "") := by
        simp [stepHasTool, hname]
      by_cases hempty : pyStrip name = ""
      · rw [if_pos hempty] at h
        obtain ⟨h1, h2, h3⟩ := ih counts res hnd hall h
        refine ⟨h1, h2, ?_⟩
        rw [h3, List.countP_cons, hstep, hempty]
        simp
      · rw [if_neg hempty] at h
        obtain ⟨h1, h2, h3⟩ := ih (bumpCount counts (pyStrip name)) res
          (nodup_keysOf_bumpCount _ _ hnd) (bumpCount_mem_prop _ hempty counts hall) h
        refine ⟨h1, h2, ?_⟩
        rw [h3, bumpCount_sum, List.countP_cons, hstep]
        have : (pyStrip name != "") = true := bne_iff_ne.mpr hempty
        rw [this]
        simp
        omega

/-- Keys of the sorted counts dictionary are the sorted keys. -/
theorem keysOf_sortCounts (counts : List (String × Nat)) :
    keysOf (sortCounts counts) = sortStrings (keysOf counts) := by
  simp only [sortCounts, keysOf, List.map_map]
  exact List.map_id _

/-- Lookup of the head key of a counts dictionary. -/
theorem lookupCount_cons_self (kv : String × Nat) (rest : List (String × Nat)) :
    lookupCount (kv :: rest) kv.1 = kv.2 := by
  simp [lookupCount, List.find?_cons_of_pos]

/-- Lookup of a key different from the head key. -/
theorem lookupCount_cons_ne (kv : String × Nat) (rest : List (String × Nat))
    (k : String) (h : kv.1 ≠ k) : lookupCount (kv :: rest) k = lookupCount rest k := by
  simp only [lookupCount]
  rw [List.find?_cons_of_neg]
  simp [h]

/-- With duplicate-free keys, looking every key back up recovers the values. -/
theorem map_lookup_keys : ∀ counts : List (String × Nat),
    (keysOf counts).Nodup →
    (keysOf counts).map (fun k => lookupCount counts k) = counts.map (fun kv => kv.2) := by
  intro counts
  induction counts with
  | nil => intro _; rfl
  | cons kv rest ih =>
    intro hnd
    have hnd2 := hnd
    rw [show keysOf (kv :: rest) = kv.1 :: keysOf rest from rfl] at hnd2
    rcases List.nodup_cons.mp hnd2 with ⟨hout, hndrest⟩
    show (kv.1 :: keysOf rest).map (fun k => lookupCount (kv :: rest) k)
      = kv.2 :: rest.map (fun kv => kv.2)
    rw [List.map_cons, lookupCount_cons_self]
    congr 1
    rw [← ih hndrest]
    apply List.map_congr_left
    intro k hk
    exact lookupCount_cons_ne kv rest k (fun hx => hout (hx ▸ hk))

/-- Sorting the counts dictionary preserves the total of the counts. -/
theorem sum_sortCounts (counts : List (String × Nat)) (hnd : (keysOf counts).Nodup) :
    ((sortCounts counts).map (fun kv => kv.2)).sum = (counts.map (fun kv => kv.2)).sum := by
  have hperm := (sortStrings_perm (keysOf counts)).map (fun k => lookupCount counts k)
  calc ((sortCounts counts).map (fun kv => kv.2)).sum
      = ((sortStrings (keysOf counts)).map (fun k => lookupCount counts k)).sum := by
        simp only [sortCounts, List.map_map]
        rfl
    _ = ((keysOf counts).map (fun k => lookupCount counts k)).sum := hperm.sum_eq
    _ = (counts.map (fun kv => kv.2)).sum := by rw [map_lookup_keys counts hnd]

/-- Every entry of the sorted counts dictionary carries a key of the original
dictionary and its looked-up count. -/
theorem mem_sortCounts (counts : List (String × Nat)) (kv : String × Nat)
    (h : kv ∈ sortCounts counts) :
    kv.1 ∈ keysOf counts ∧ kv.2 = lookupCount counts kv.1 := by
  simp only [sortCounts, List.mem_map] at h
  obtain ⟨k, hk, hkv⟩ := h
  subst hkv
  exact ⟨(sortStrings_perm (keysOf counts)).mem_iff.mp hk, rfl⟩

/-- Lookup of a present key in an all-positive counts dictionary is positive. -/
theorem lookupCount_pos : ∀ counts : List (String × Nat), ∀ k : String,
    (∀ kv ∈ counts, kv.1 ≠ "" ∧ 1 ≤ kv.2) → k ∈ keysOf counts →
    1 ≤ lookupCount counts k := by
  intro counts
  induction counts with
  | nil => intro k _ hmem; simp [keysOf] at hmem
  | cons kv rest ih =>
    intro k hall hmem
    by_cases h : kv.1 = k
    · rw [← h, lookupCount_cons_self]
      exact (hall kv (List.mem_cons_self _ _)).2
    · rw [lookupCount_cons_ne kv rest k h]
      refine ih k (fun x hx => hall x (List.mem_cons_of_mem _ hx)) ?_
      rcases List.mem_cons.mp hmem with h1 | h2
      · exact absurd h1.symm h
      · exact h2

/-- Keys of an invariant-satisfying counts dictionary are non-empty. -/
theorem mem_keys_ne_empty (counts : List (String × Nat))
    (hall : ∀ kv ∈ counts, kv.1 ≠ "" ∧ 1 ≤ kv.2)
    (k : String) (hmem : k ∈ keysOf counts) : k ≠ "" := by
  simp only [keysOf, List.mem_map] at hmem
  obtain ⟨kv, hkv, hk⟩ := hmem
  exact hk ▸ (hall kv hkv).1

/-- Claim C8: locate_tool_use returns a mapping whose keys are in strictly
increasing lexicographic order and never empty (steps with an unresolvable
tool name are excluded entirely); in particular, on a trajectory where steps
1 and 3 resolve to tool `bash` and step 2 has no resolvable tool name, the
result is exactly the one-entry mapping `bash` to 2. -/
theorem claim_c8 :
    (∀ (steps : List Json) (m : List (String × Nat)),
        locate_tool_use_core steps = Except.ok m →
        (keysOf m).Pairwise (fun a b => strLt a b = true) ∧ ∀ kv ∈ m, kv.1 ≠ "")
    ∧ locate_tool_use_core [stepToolBash, stepNoTool, stepToolBash]
        = Except.ok [("bash", 2)] := by
  constructor
  · intro steps m h
    simp only [locate_tool_use_core] at h
    cases hcs : countSteps steps [] with
    | error e => simp only [hcs] at h; cases h
    | ok counts =>
      simp only [hcs, Except.ok.injEq] at h
      subst h
      obtain ⟨hnd, hall, _⟩ := countSteps_inv steps [] counts (by simp [keysOf]) (by simp) hcs
      constructor
      · rw [keysOf_sortCounts]
        exact pairwise_lt_sortStrings (keysOf counts) hnd
      · intro kv hkv
        exact mem_keys_ne_empty counts hall kv.1 (mem_sortCounts counts kv hkv).1
  · rfl

/-- Witness for claim C8 at the scenario-6 trajectory. -/
theorem claim_c8_witness :
    (keysOf [("bash", 2)]).Pairwise (fun a b => strLt a b = true)
    ∧ ∀ kv ∈ ([("bash", 2)] : List (String × Nat)), kv.1 ≠ "" :=
  claim_c8.1 [stepToolBash, stepNoTool, stepToolBash] [("bash", 2)] (by rfl)

/-- Claim C10: in every mapping returned by locate_tool_use, every count is
at least 1, and the counts sum to exactly the number of steps whose resolved
tool name is non-empty after stripping. -/
theorem claim_c10 (steps : List Json) (m : List (String × Nat))
    (h : locate_tool_use_core steps = Except.ok m) :
    (∀ kv ∈ m, 1 ≤ kv.2)
    ∧ (m.map (fun kv => kv.2)).sum = steps.countP stepHasTool := by
  simp only [locate_tool_use_core] at h
  cases hcs : countSteps steps [] with
  | error e => simp only [hcs] at h; cases h
  | ok counts =>
    simp only [hcs, Except.ok.injEq] at h
    subst h
    obtain ⟨hnd, hall, hsum⟩ := countSteps_inv steps [] counts (by simp [keysOf]) (by simp) hcs
    constructor
    · intro kv hkv
      obtain ⟨hmemk, hval⟩ := mem_sortCounts counts kv hkv
      rw [hval]
      exact lookupCount_pos counts kv.1 hall hmemk
    · rw [sum_sortCounts counts hnd, hsum]
      simp

/-- Witness for claim C10 at the scenario-6 trajectory. -/
theorem claim_c10_witness :
    (∀ kv ∈ ([("bash", 2)] : List (String × Nat)), 1 ≤ kv.2)
    ∧ (([("bash", 2)] : List (String × Nat)).map (fun kv => kv.2)).sum
        = [stepToolBash, stepNoTool, stepToolBash].countP stepHasTool :=
  claim_c10 [stepToolBash, stepNoTool, stepToolBash] [("bash", 2)] (by rfl)

end Traj
